import Mathlib

/-!
Shallow embedding of the ssh-keyserver repository (Go) in Lean 4.

The embedding models:
* `server.go` — config data model (`Config`, `HostConfig`, `GroupConfig`),
  `loadConfig`, `validateToken`, `getUsersForHost`, `getKeysForUsers`,
  `getKeysHandler`;
* `userkeys.go` — the keyring store (`loadAllKeys`, `loadUserKeys`,
  `GetUserKeys`) and the debounced watcher logic shared by `watchConfig`
  and `watchKeyring`.

Modelling conventions:
* Go maps are association lists `List (String × α)`; `lookupMap` is Go map
  indexing.  Go map iteration order is unspecified, so the association-list
  order stands for the runtime's incidental iteration order.
* `golang.org/x/crypto/ssh.ParseAuthorizedKey` is an external library and is
  abstracted as a parameter `parseOk : String → Bool` (true ⇔ the library
  parses the file content as an authorized key).
* `gopkg.in/yaml.v2` unmarshalling is abstracted as a parameter
  `parse : String → Option Config`; a read failure of `os.ReadFile` is the
  `none` case of an `Option String`.
* Filesystem state for the keyring is a listing `Option (List UserDir)`
  (`none` = `os.ReadDir` of the root fails); each `UserDir` carries its own
  `Option (List KeyFile)` listing and each `KeyFile` an `Option String`
  content (`none` = read error).
* `http.Error(w, msg, code)` is modelled as the response `⟨code, msg⟩`;
  a success is `⟨200, body⟩`.
-/

namespace SSHKeyserver

/-! ### String helpers mirroring Go's `strings` package -/

/-- Go `strings.HasPrefix s p`. -/
def hasPrefix (s p : String) : Bool :=
  p.data.isPrefixOf s.data

/-- Go `strings.HasSuffix s p`. -/
def hasSuffix (s p : String) : Bool :=
  p.data.isSuffixOf s.data

/-- Go `strings.TrimPrefix s p`: drops `p` when it is a prefix, else `s`. -/
def trimPrefix (s p : String) : String :=
  if hasPrefix s p then ⟨s.data.drop p.data.length⟩ else s

/-- Number of `'\n'` characters in `s`.
Go's `len(strings.Split(s, "\n"))` equals `newlineCount s + 1`. -/
def newlineCount (s : String) : Nat :=
  (s.data.filter (fun c => c = '\n')).length

/-! ### Config data model (`server.go`) -/

structure HostConfig where
  token : String
  users : List String
  groups : List String
deriving DecidableEq, Repr

structure GroupConfig where
  users : List String
deriving DecidableEq, Repr

structure Config where
  hosts : List (String × HostConfig)
  groups : List (String × GroupConfig)
deriving DecidableEq, Repr

/-- Go map indexing `m[k]` returning presence. -/
def lookupMap {α : Type} (m : List (String × α)) (k : String) : Option α :=
  match m with
  | [] => none
  | (k', v) :: rest => if k' = k then some v else lookupMap rest k

/-- Keyring snapshot: `UserKeys.keyring`, username → ordered list of keys. -/
abbrev Keyring : Type := List (String × List String)

/-- Model of `UserKeys.GetUserKeys`: Go map indexing yields `nil` for a missing user. -/
def GetUserKeys (kr : Keyring) (username : String) : List String :=
  (lookupMap kr username).getD []

/-! ### Server request path (`server.go`) -/

/-- Model of `Server.validateToken`. -/
def validateToken (cfg : Config) (hostname token : String) : Bool :=
  match lookupMap cfg.hosts hostname with
  | none => false
  | some hostConfig => hostConfig.token == token

/-- Insertion into the `uniqueUsers` set, keeping first-occurrence order for
the set's (incidental) enumeration order. -/
def insertUnique (l : List String) (u : String) : List String :=
  if u ∈ l then l else l ++ [u]

/-- The `uniqueUsers` set built by `getUsersForHost`: direct users of the
host, then the users of each group of the host that exists in the config. -/
def uniqueUsers (cfg : Config) (hostConfig : HostConfig) : List String :=
  hostConfig.groups.foldl
    (fun acc groupName =>
      match lookupMap cfg.groups groupName with
      | some groupConfig => groupConfig.users.foldl insertUnique acc
      | none => acc)
    (hostConfig.users.foldl insertUnique [])

/-- Model of `Server.getUsersForHost`: the unique candidate users that have at least
one key in the keyring snapshot. -/
def getUsersForHost (cfg : Config) (kr : Keyring) (hostname : String) :
    List String :=
  match lookupMap cfg.hosts hostname with
  | none => []
  | some hostConfig =>
      (uniqueUsers cfg hostConfig).filter
        (fun user => !(GetUserKeys kr user).isEmpty)

/-- Model of `Server.getKeysForUsers`: concatenates every key of every listed user,
in order, into one payload string. -/
def getKeysForUsers (kr : Keyring) (users : List String) : String :=
  users.foldl
    (fun acc username =>
      (GetUserKeys kr username).foldl (fun b key => b ++ key) acc)
    ""

structure Request where
  method : String
  path : String
  /-- Value of `r.Header.Get("Authorization")`; Go returns `""` for a missing header. -/
  authHeader : String
deriving DecidableEq, Repr

structure Response where
  status : Nat
  body : String
deriving DecidableEq, Repr

/-- Model of `Server.getKeysHandler`. -/
def getKeysHandler (cfg : Config) (kr : Keyring) (r : Request) : Response :=
  if r.method ≠ "GET" then ⟨405, "Method not allowed"⟩
  else
    let path := trimPrefix r.path "/keys/"
    if path = "" then ⟨400, "Missing hostname"⟩
    else
      let hostname := path
      match lookupMap cfg.hosts hostname with
      | none => ⟨404, "Host not found"⟩
      | some _ =>
        if !hasPrefix r.authHeader "Token " then
          ⟨401, "Invalid Authorization header"⟩
        else
          let token := trimPrefix r.authHeader "Token "
          if !validateToken cfg hostname token then ⟨401, "Invalid token"⟩
          else
            let users := getUsersForHost cfg kr hostname
            if users.isEmpty then ⟨404, "Host has no valid users"⟩
            else
              let keys := getKeysForUsers kr users
              if newlineCount keys + 1 ≤ 1 then ⟨404, "Host has no valid keys"⟩
              else ⟨200, keys⟩

/-! ### Keyring store (`userkeys.go`) -/

/-- One entry of a user's key directory: file name and content
(`none` = `os.ReadFile` error). -/
structure KeyFile where
  name : String
  content : Option String
deriving DecidableEq, Repr

/-- One entry of the keyring root: name, whether it is a directory, and its
own listing (`none` = `os.ReadDir` of the user directory fails). -/
structure UserDir where
  name : String
  isDir : Bool
  files : Option (List KeyFile)
deriving DecidableEq, Repr

/-- The normalization applied by `loadUserKeys` to an accepted key:
append `"\n"` unless the content already ends with it. -/
def normalizeKey (s : String) : String :=
  if hasSuffix s "\n" then s else s ++ "\n"

/-- The file loop of `UserKeys.loadUserKeys`, building the user's key list in
directory-listing order: non-`.pub` names, unreadable files and contents the
SSH parser (`parseOk`) rejects are skipped. -/
def loadUserKeysList (parseOk : String → Bool) : List KeyFile → List String
  | [] => []
  | file :: rest =>
      if !hasSuffix file.name ".pub" then loadUserKeysList parseOk rest
      else
        match file.content with
        | none => loadUserKeysList parseOk rest
        | some keyData =>
            if !parseOk keyData then loadUserKeysList parseOk rest
            else normalizeKey keyData :: loadUserKeysList parseOk rest

/-- Model of `UserKeys.loadUserKeys`: fails only when the user directory itself cannot
be listed. -/
def loadUserKeys (parseOk : String → Bool) (files : Option (List KeyFile)) :
    Except Unit (List String) :=
  match files with
  | none => .error ()
  | some fs => .ok (loadUserKeysList parseOk fs)

/-- The entry loop of `UserKeys.loadAllKeys`, building `newKeyring` in
root-listing order: non-directories are skipped, a user whose `loadUserKeys`
fails is skipped, and a user with zero accepted keys is omitted. -/
def buildKeyring (parseOk : String → Bool) : List UserDir → Keyring
  | [] => []
  | entry :: rest =>
      if !entry.isDir then buildKeyring parseOk rest
      else
        match loadUserKeys parseOk entry.files with
        | .error _ => buildKeyring parseOk rest
        | .ok keys =>
            if keys.isEmpty then buildKeyring parseOk rest
            else (entry.name, keys) :: buildKeyring parseOk rest

/-- Model of `UserKeys.loadAllKeys`: fails only when the root directory cannot be
listed (`root = none`); otherwise returns the fully built new keyring. -/
def loadAllKeys (parseOk : String → Bool) (root : Option (List UserDir)) :
    Except Unit Keyring :=
  match root with
  | none => .error ()
  | some entries => .ok (buildKeyring parseOk entries)

/-- The published keyring after a reload attempt: `loadAllKeys` assigns
`uk.keyring = newKeyring` only on success; the watcher logs a failure and
leaves the previous snapshot in place. -/
def reloadKeyring (parseOk : String → Bool) (root : Option (List UserDir))
    (old : Keyring) : Keyring :=
  match loadAllKeys parseOk root with
  | .error _ => old
  | .ok kr => kr

/-! ### Config store (`server.go`: `loadConfig` / `watchConfig`) -/

/-- Model of `Server.loadConfig`: `os.ReadFile` (the `Option String`) then
`yaml.Unmarshal` (the abstract `parse`); either failure aborts the reload. -/
def loadConfig (fileData : Option String) (parse : String → Option Config) :
    Except Unit Config :=
  match fileData with
  | none => .error ()
  | some data =>
      match parse data with
      | none => .error ()
      | some newConfig => .ok newConfig

/-- The published config after a reload attempt: `s.config` is assigned only
after a successful read and parse; the watcher logs a failure and keeps the
previous snapshot. -/
def reloadConfig (fileData : Option String) (parse : String → Option Config)
    (old : Config) : Config :=
  match loadConfig fileData parse with
  | .error _ => old
  | .ok cfg => cfg

/-! ### Debounced watcher (`watchConfig` / `watchKeyring`)

Both watchers keep at most one pending `time.AfterFunc` timer; every relevant
event stops the pending timer (if any) and schedules a fresh one to fire
`interval` after the event.  We model the event stream as a nondecreasing
list of event timestamps and count timer firings: a pending timer with expiry
`f` fires iff no later event arrives before `f`. -/

/-- Steps through the remaining events given the pending timer expiry, and
counts reloads.  An event at time `t` finds the pending timer either already
fired (`f ≤ t`, counted) or still pending (cancelled), and in both cases
schedules a new timer for `t + interval`; after the last event the pending
timer fires. -/
def debounceFires (interval : Nat) : List Nat → Option Nat → Nat
  | [], none => 0
  | [], some _ => 1
  | t :: rest, none => debounceFires interval rest (some (t + interval))
  | t :: rest, some f =>
      if f ≤ t then 1 + debounceFires interval rest (some (t + interval))
      else debounceFires interval rest (some (t + interval))

/-- Total number of reloads executed for a full event trace. -/
def runDebouncer (interval : Nat) (times : List Nat) : Nat :=
  debounceFires interval times none

/-- Modelled from the spec: `gopkg.in/yaml.v2` unmarshalling of a `hosts`
entry whose `token` field is omitted leaves `HostConfig.Token` at Go's zero
value for `string`, the empty string. -/
def hostConfigOmittedToken (users groups : List String) : HostConfig :=
  ⟨"", users, groups⟩

/-! ### Concrete fixtures (the configuration example of spec §8) -/

/-- Host configuration of the example host `web1`. -/
def hcW : HostConfig := ⟨"tok-a", ["alice"], ["ops", "ghost"]⟩

/-- Example configuration: host `web1` with a direct user, an existing
group and an unknown group. -/
def cfgW : Config :=
  { hosts := [("web1", hcW)],
    groups := [("ops", ⟨["bob", "alice"]⟩)] }

/-- Example configuration with a host whose token field is omitted. -/
def cfgW2 : Config :=
  { hosts := [("web2", hostConfigOmittedToken ["alice"] [])],
    groups := [] }

/-- Example SSH parser: accepts exactly the three key bodies used in the
keyring fixture. -/
def parseOkW : String → Bool :=
  fun s => s = "ka1" || s = "ka2" || s = "kb"

/-- Example keyring directory tree: two users with valid keys, one user
with only an invalid key, and a stray non-directory entry. -/
def entriesW : List UserDir :=
  [⟨"alice", true, some [⟨"a1.pub", some "ka1"⟩, ⟨"a2.pub", some "ka2"⟩]⟩,
   ⟨"bob", true, some [⟨"b.pub", some "kb"⟩, ⟨"junk.txt", some "zz"⟩]⟩,
   ⟨"carol", true, some [⟨"bad.pub", some "nope"⟩]⟩,
   ⟨"stray", false, none⟩]

/-- Example keyring snapshot, matching `buildKeyring parseOkW entriesW`. -/
def krW : Keyring := [("alice", ["ka1\n", "ka2\n"]), ("bob", ["kb\n"])]

/-! ### String helper lemmas -/

theorem hasPrefix_append (p s : String) : hasPrefix (p ++ s) p = true := by
  simp [hasPrefix, String.data_append, List.isPrefixOf_iff_prefix,
    List.prefix_append]

theorem trimPrefix_append (p s : String) : trimPrefix (p ++ s) p = s := by
  apply String.ext
  simp [trimPrefix, hasPrefix_append, String.data_append, List.drop_left]

theorem hasSuffix_append (s p : String) : hasSuffix (s ++ p) p = true := by
  simp [hasSuffix, String.data_append, List.isSuffixOf_iff_suffix,
    List.suffix_append]

theorem newlineCount_append (a b : String) :
    newlineCount (a ++ b) = newlineCount a + newlineCount b := by
  simp [newlineCount, String.data_append, List.filter_append]

theorem newlineCount_pos_of_hasSuffix {k : String}
    (h : hasSuffix k "\n" = true) : 0 < newlineCount k := by
  rw [hasSuffix, List.isSuffixOf_iff_suffix] at h
  have hm : '\n' ∈ k.data := h.subset (by simp)
  rw [newlineCount, List.length_pos]
  intro hnil
  have hmem : '\n' ∈ List.filter (fun c => decide (c = '\n')) k.data :=
    List.mem_filter.mpr ⟨hm, by simp⟩
  rw [hnil] at hmem
  simp at hmem

theorem string_join_cons (a : String) (l : List String) :
    String.join (a :: l) = a ++ String.join l := by
  have key : ∀ (l : List String) (acc : String),
      l.foldl (fun x y => x ++ y) acc = acc ++ String.join l := by
    intro l
    induction l with
    | nil => intro acc; simp [String.join]
    | cons h t ih =>
        intro acc
        have hj : String.join (h :: t) = h ++ String.join t := by
          show List.foldl (fun x y => x ++ y) ("" ++ h) t = h ++ String.join t
          rw [ih]
          simp [String.empty_append]
        simp only [List.foldl_cons, ih, hj, String.append_assoc]
  show List.foldl (fun x y => x ++ y) ("" ++ a) l = a ++ String.join l
  rw [key]
  simp [String.empty_append]

theorem foldl_append_eq (l : List String) (acc : String) :
    l.foldl (fun a k => a ++ k) acc = acc ++ String.join l := by
  induction l generalizing acc with
  | nil => simp [String.join]
  | cons h t ih =>
      simp only [List.foldl_cons, ih, string_join_cons, String.append_assoc]

theorem foldl_append_map {α : Type} (g : α → String) (l : List α)
    (acc : String) :
    l.foldl (fun a x => a ++ g x) acc = acc ++ String.join (l.map g) := by
  induction l generalizing acc with
  | nil => simp [String.join]
  | cons h t ih =>
      simp only [List.foldl_cons, List.map_cons, ih, string_join_cons,
        String.append_assoc]

/-- Lemma: `getKeysForUsers` is the concatenation, in list order, of each listed
user's full key sequence. -/
theorem getKeysForUsers_eq_join (kr : Keyring) (users : List String) :
    getKeysForUsers kr users =
      String.join (users.map fun u => String.join (GetUserKeys kr u)) := by
  unfold getKeysForUsers
  simp only [foldl_append_eq]
  rw [foldl_append_map (fun u => String.join (GetUserKeys kr u)) users ""]
  simp [String.empty_append]

/-! ### `uniqueUsers` characterization -/

theorem mem_insertUnique {l : List String} {u v : String} :
    v ∈ insertUnique l u ↔ v ∈ l ∨ v = u := by
  unfold insertUnique
  split <;> rename_i h
  · constructor
    · exact Or.inl
    · rintro (hv | rfl)
      · exact hv
      · exact h
  · simp

theorem nodup_insertUnique {l : List String} {u : String} (h : l.Nodup) :
    (insertUnique l u).Nodup := by
  unfold insertUnique
  split <;> rename_i hmem
  · exact h
  · simp [List.nodup_append, h, hmem]

theorem mem_foldl_insertUnique (l : List String) (acc : List String)
    (v : String) :
    v ∈ l.foldl insertUnique acc ↔ v ∈ acc ∨ v ∈ l := by
  induction l generalizing acc with
  | nil => simp
  | cons h t ih =>
      simp only [List.foldl_cons, ih, mem_insertUnique, List.mem_cons]
      tauto

theorem nodup_foldl_insertUnique (l : List String) (acc : List String)
    (h : acc.Nodup) : (l.foldl insertUnique acc).Nodup := by
  induction l generalizing acc with
  | nil => exact h
  | cons x t ih => exact ih _ (nodup_insertUnique h)

theorem mem_groups_foldl (cfg : Config) (groups : List String)
    (acc : List String) (v : String) :
    v ∈ groups.foldl
        (fun acc groupName =>
          match lookupMap cfg.groups groupName with
          | some groupConfig => groupConfig.users.foldl insertUnique acc
          | none => acc) acc ↔
      v ∈ acc ∨ ∃ g ∈ groups, ∃ gc,
        lookupMap cfg.groups g = some gc ∧ v ∈ gc.users := by
  induction groups generalizing acc with
  | nil => simp
  | cons g t ih =>
      simp only [List.foldl_cons]
      rcases hg : lookupMap cfg.groups g with _ | gc <;>
        simp only [hg, ih, mem_foldl_insertUnique, List.mem_cons]
      · constructor
        · rintro (hv | hrest)
          · exact Or.inl hv
          · obtain ⟨g', hg', gc', hgc', hv⟩ := hrest
            exact Or.inr ⟨g', Or.inr hg', gc', hgc', hv⟩
        · rintro (hv | ⟨g', hg' | hg', gc', hgc', hv⟩)
          · exact Or.inl hv
          · subst hg'
            rw [hg] at hgc'
            cases hgc'
          · exact Or.inr ⟨g', hg', gc', hgc', hv⟩
      · constructor
        · rintro ((hv | hv) | hrest)
          · exact Or.inl hv
          · exact Or.inr ⟨g, Or.inl rfl, gc, hg, hv⟩
          · obtain ⟨g', hg', gc', hgc', hv⟩ := hrest
            exact Or.inr ⟨g', Or.inr hg', gc', hgc', hv⟩
        · rintro (hv | ⟨g', hg' | hg', gc', hgc', hv⟩)
          · exact Or.inl (Or.inl hv)
          · subst hg'
            rw [hg] at hgc'
            cases hgc'
            exact Or.inl (Or.inr hv)
          · exact Or.inr ⟨g', hg', gc', hgc', hv⟩

theorem nodup_groups_foldl (cfg : Config) (groups : List String)
    (acc : List String) (h : acc.Nodup) :
    (groups.foldl
        (fun acc groupName =>
          match lookupMap cfg.groups groupName with
          | some groupConfig => groupConfig.users.foldl insertUnique acc
          | none => acc) acc).Nodup := by
  induction groups generalizing acc with
  | nil => exact h
  | cons g t ih =>
      simp only [List.foldl_cons]
      rcases hg : lookupMap cfg.groups g with _ | gc <;> simp only [hg]
      · exact ih _ h
      · exact ih _ (nodup_foldl_insertUnique _ _ h)

/-- Membership in the deduplicated candidate set: a user is a candidate iff
it is a direct user of the host or a member of some group of the host that
exists in the config. -/
theorem mem_uniqueUsers (cfg : Config) (hc : HostConfig) (v : String) :
    v ∈ uniqueUsers cfg hc ↔
      v ∈ hc.users ∨ ∃ g ∈ hc.groups, ∃ gc,
        lookupMap cfg.groups g = some gc ∧ v ∈ gc.users := by
  unfold uniqueUsers
  rw [mem_groups_foldl, mem_foldl_insertUnique]
  simp

theorem nodup_uniqueUsers (cfg : Config) (hc : HostConfig) :
    (uniqueUsers cfg hc).Nodup := by
  unfold uniqueUsers
  exact nodup_groups_foldl _ _ _ (nodup_foldl_insertUnique _ _ List.nodup_nil)

/-! ### Keyring load lemmas -/

theorem hasSuffix_normalizeKey (s : String) :
    hasSuffix (normalizeKey s) "\n" = true := by
  unfold normalizeKey
  split <;> rename_i h
  · exact h
  · exact hasSuffix_append s "\n"

theorem loadUserKeysList_suffix (parseOk : String → Bool) :
    ∀ (files : List KeyFile), ∀ k ∈ loadUserKeysList parseOk files,
      hasSuffix k "\n" = true := by
  intro files
  induction files with
  | nil => intro k hk; simp [loadUserKeysList] at hk
  | cons f rest ih =>
      intro k hk
      simp only [loadUserKeysList] at hk
      split at hk
      · exact ih k hk
      · split at hk
        · exact ih k hk
        · split at hk
          · exact ih k hk
          · rcases List.mem_cons.mp hk with h | h
            · subst h
              exact hasSuffix_normalizeKey _
            · exact ih k h

theorem buildKeyring_lookup (parseOk : String → Bool) :
    ∀ (entries : List UserDir) (u : String) (ks : List String),
      lookupMap (buildKeyring parseOk entries) u = some ks →
      ks ≠ [] ∧ ∀ k ∈ ks, hasSuffix k "\n" = true := by
  intro entries
  induction entries with
  | nil => intro u ks h; simp [buildKeyring, lookupMap] at h
  | cons e rest ih =>
      intro u ks h
      simp only [buildKeyring] at h
      split at h
      · exact ih u ks h
      · split at h
        · exact ih u ks h
        · rename_i keys hkeys
          split at h <;> rename_i hemp
          · exact ih u ks h
          · simp only [lookupMap] at h
            split at h
            · cases h
              refine ⟨?_, ?_⟩
              · intro hnil
                subst hnil
                simp at hemp
              · rcases hf : e.files with _ | fs
                · rw [hf] at hkeys
                  cases hkeys
                · rw [hf] at hkeys
                  cases hkeys
                  exact loadUserKeysList_suffix parseOk fs
            · exact ih u ks h

/-! ### Debounce lemmas -/

theorem debounce_burst (interval : Nat) :
    ∀ (ts : List Nat) (t : Nat),
      List.Chain' (fun a b => b < a + interval) (t :: ts) →
      debounceFires interval ts (some (t + interval)) = 1 := by
  intro ts
  induction ts with
  | nil => intro t _; rfl
  | cons t' rest ih =>
      intro t hch
      rw [List.chain'_cons] at hch
      obtain ⟨h1, h2⟩ := hch
      simp only [debounceFires]
      rw [if_neg (by omega)]
      exact ih t' h2

theorem debounce_spaced (interval : Nat) :
    ∀ (ts : List Nat) (t : Nat),
      List.Chain' (fun a b => a + interval < b) (t :: ts) →
      debounceFires interval ts (some (t + interval)) = ts.length + 1 := by
  intro ts
  induction ts with
  | nil => intro t _; rfl
  | cons t' rest ih =>
      intro t hch
      rw [List.chain'_cons] at hch
      obtain ⟨h1, h2⟩ := hch
      simp only [debounceFires]
      rw [if_pos (by omega), ih t' h2]
      simp
      omega

theorem newlineCount_join_pos {l : List String} (hne : l ≠ [])
    (hall : ∀ k ∈ l, hasSuffix k "\n" = true) :
    1 ≤ newlineCount (String.join l) := by
  cases l with
  | nil => cases hne rfl
  | cons k rest =>
      rw [string_join_cons, newlineCount_append]
      have := newlineCount_pos_of_hasSuffix (hall k (by simp))
      omega

/-! ### Handler reduction for well-formed GET requests -/

theorem getKeysHandler_get (cfg : Config) (kr : Keyring) (r : Request)
    (H : String) (hm : r.method = "GET") (hp : r.path = "/keys/" ++ H)
    (hne : H ≠ "") :
    getKeysHandler cfg kr r =
      match lookupMap cfg.hosts H with
      | none => ⟨404, "Host not found"⟩
      | some _ =>
        if !hasPrefix r.authHeader "Token " then
          ⟨401, "Invalid Authorization header"⟩
        else
          if !validateToken cfg H (trimPrefix r.authHeader "Token ") then
            ⟨401, "Invalid token"⟩
          else
            if (getUsersForHost cfg kr H).isEmpty then
              ⟨404, "Host has no valid users"⟩
            else
              if newlineCount (getKeysForUsers kr (getUsersForHost cfg kr H))
                  + 1 ≤ 1 then
                ⟨404, "Host has no valid keys"⟩
              else ⟨200, getKeysForUsers kr (getUsersForHost cfg kr H)⟩ := by
  simp only [getKeysHandler, hm, hp, trimPrefix_append]
  rw [if_neg (by simp), if_neg hne]

/-! ### Claim theorems -/

/-- Claim C3: a GET request for a hostname absent from the config snapshot
yields 404 "Host not found" for every Authorization header, so the outcome
is independent of (decided before) the token; and for the same request shape
an existing host with no credential yields 401, so 404-vs-401 reveals host
existence to an unauthenticated caller. -/
theorem c3_unknown_host_404 (cfg : Config) (kr : Keyring) (H : String)
    (r : Request) (hH : lookupMap cfg.hosts H = none)
    (hm : r.method = "GET") (hp : r.path = "/keys/" ++ H) (hne : H ≠ "") :
    getKeysHandler cfg kr r = ⟨404, "Host not found"⟩ ∧
    ∀ (cfg2 : Config) (hc : HostConfig),
      lookupMap cfg2.hosts H = some hc →
      (getKeysHandler cfg2 kr { r with authHeader := "" }).status = 401 := by
  constructor
  · rw [getKeysHandler_get cfg kr r H hm hp hne, hH]
  · intro cfg2 hc hH2
    rw [getKeysHandler_get cfg2 kr ⟨r.method, r.path, ""⟩ H hm hp hne, hH2]
    have hpre : hasPrefix "" "Token " = false := by decide
    simp [hpre]

/-- Claim C2: for a host present in the config, any GET request whose
Authorization header is not of the form `Token <configured token>` —
missing, malformed, or carrying a different token — yields status 401, and
`validateToken` accepts exactly the configured token (plain string
equality). -/
theorem c2_wrong_token_401 (cfg : Config) (kr : Keyring) (H : String)
    (hc : HostConfig) (r : Request) (hH : lookupMap cfg.hosts H = some hc)
    (hm : r.method = "GET") (hp : r.path = "/keys/" ++ H) (hne : H ≠ "")
    (hbad : ¬(hasPrefix r.authHeader "Token " = true ∧
              trimPrefix r.authHeader "Token " = hc.token)) :
    (getKeysHandler cfg kr r).status = 401 ∧
    ∀ t, validateToken cfg H t = true ↔ t = hc.token := by
  have hval : ∀ t, validateToken cfg H t = true ↔ t = hc.token := by
    intro t
    rw [validateToken, hH]
    show (hc.token == t) = true ↔ t = hc.token
    rw [beq_iff_eq]
    exact eq_comm
  refine ⟨?_, hval⟩
  rw [getKeysHandler_get cfg kr r H hm hp hne, hH]
  cases hpre : hasPrefix r.authHeader "Token " with
  | false => simp [hpre]
  | true =>
      have htok : trimPrefix r.authHeader "Token " ≠ hc.token := by
        intro h
        exact hbad ⟨hpre, h⟩
      have hv : validateToken cfg H (trimPrefix r.authHeader "Token ")
          = false := by
        cases hvb : validateToken cfg H (trimPrefix r.authHeader "Token ")
        · rfl
        · exact absurd ((hval _).mp hvb) htok
      simp [hpre, hv]

/-- Claim C4: a reload of either store that fails — config read error,
config parse error, or failure to list the keyring root — leaves the
previously published snapshot unchanged; on success the published snapshot
is exactly the fully built new one, independent of the old snapshot. -/
theorem c4_failed_reload_keeps_snapshot :
    (∀ (parse : String → Option Config) (old : Config),
        reloadConfig none parse old = old) ∧
    (∀ (fileData : String) (parse : String → Option Config) (old : Config),
        parse fileData = none →
        reloadConfig (some fileData) parse old = old) ∧
    (∀ (parseOk : String → Bool) (old : Keyring),
        reloadKeyring parseOk none old = old) ∧
    (∀ (fileData : String) (parse : String → Option Config) (old : Config)
        (newConfig : Config), parse fileData = some newConfig →
        reloadConfig (some fileData) parse old = newConfig) ∧
    (∀ (parseOk : String → Bool) (entries : List UserDir) (old : Keyring),
        reloadKeyring parseOk (some entries) old =
          buildKeyring parseOk entries) := by
  refine ⟨?_, ?_, ?_, ?_, ?_⟩
  · intro parse old
    rfl
  · intro fileData parse old h
    simp [reloadConfig, loadConfig, h]
  · intro parseOk old
    rfl
  · intro fileData parse old newConfig h
    simp [reloadConfig, loadConfig, h]
  · intro parseOk entries old
    rfl

/-- Claim C5: in a user directory holding a `.pub` file the SSH parser
rejects, a `.pub` file it accepts, and a file not named `*.pub`, the user's
load succeeds and yields exactly the normalized valid key; and a keyring
reload whose root listing succeeds never fails, whatever the files
contain. -/
theorem c5_invalid_key_skipped (parseOk : String → Bool)
    (bad good other : KeyFile) (db dg : String)
    (hbn : hasSuffix bad.name ".pub" = true) (hbc : bad.content = some db)
    (hbp : parseOk db = false)
    (hgn : hasSuffix good.name ".pub" = true) (hgc : good.content = some dg)
    (hgp : parseOk dg = true)
    (hon : hasSuffix other.name ".pub" = false) :
    loadUserKeys parseOk (some [bad, good, other]) =
      .ok [normalizeKey dg] ∧
    ∀ (entries : List UserDir),
      (loadAllKeys parseOk (some entries)).isOk = true := by
  constructor
  · simp [loadUserKeys, loadUserKeysList, hbn, hbc, hbp, hgn, hgc, hgp, hon]
  · intro entries
    rfl

/-- Claim C6: the keyring snapshot built by a reload never maps a username
to an empty key sequence, and a username all of whose root entries yield
zero accepted keys is absent from the new map entirely. -/
theorem c6_no_empty_user_entries (parseOk : String → Bool)
    (entries : List UserDir) (u : String) :
    (∀ ks, lookupMap (buildKeyring parseOk entries) u = some ks →
      ks ≠ []) ∧
    ((∀ e ∈ entries, e.name = u → e.isDir = true →
        ∀ keys, loadUserKeys parseOk e.files = .ok keys → keys = []) →
      lookupMap (buildKeyring parseOk entries) u = none) := by
  constructor
  · intro ks h
    exact (buildKeyring_lookup parseOk entries u ks h).1
  · intro hnone
    induction entries with
    | nil => rfl
    | cons e rest ih =>
        have ihrest := ih (fun e' he' => hnone e' (List.mem_cons_of_mem _ he'))
        cases hd : e.isDir with
        | false =>
            simp only [buildKeyring, hd, Bool.not_false, if_true]
            exact ihrest
        | true =>
            rcases hl : loadUserKeys parseOk e.files with _ | keys
            · simp only [buildKeyring, hd, Bool.not_true, if_false, hl]
              exact ihrest
            · cases hk : keys.isEmpty with
              | true =>
                  simp only [buildKeyring, hd, Bool.not_true, if_false, hl,
                    hk, if_true]
                  exact ihrest
              | false =>
                  simp only [buildKeyring, hd, Bool.not_true, if_false, hl,
                    hk]
                  by_cases hname : e.name = u
                  · have : keys = [] :=
                      hnone e (List.mem_cons_self _ _) hname hd keys hl
                    subst this
                    simp at hk
                  · simp only [lookupMap, if_neg hname]
                    exact ihrest

/-- Claim C7 counterexample: a `.pub` file accepted by the parser whose
content ends with two newline characters is stored verbatim, so the stored
key does not end with exactly one trailing newline (it still ends with
`"\n\n"`), refuting the claim as stated. -/
theorem c7_counterexample :
    loadUserKeys (fun _ => true)
        (some [⟨"id.pub", some "ssh-ed25519 AAAA user@host\n\n"⟩]) =
      .ok ["ssh-ed25519 AAAA user@host\n\n"] ∧
    ¬(hasSuffix "ssh-ed25519 AAAA user@host\n\n" "\n" = true ∧
      hasSuffix "ssh-ed25519 AAAA user@host\n\n" "\n\n" = false) := by
  constructor
  · rfl
  · decide

/-- Claim C7 as amended: every key accepted by the keyring load ends with at
least one trailing newline; a content without a trailing newline gets
exactly one appended, while a content already ending in a newline is stored
verbatim (extra trailing newlines preserved). -/
theorem c7_trailing_newline (parseOk : String → Bool)
    (files : List KeyFile) (keys : List String)
    (h : loadUserKeys parseOk (some files) = .ok keys) :
    (∀ k ∈ keys, hasSuffix k "\n" = true) ∧
    (∀ s, hasSuffix s "\n" = false → normalizeKey s = s ++ "\n") ∧
    (∀ s, hasSuffix s "\n" = true → normalizeKey s = s) := by
  refine ⟨?_, ?_, ?_⟩
  · simp only [loadUserKeys, Except.ok.injEq] at h
    subst h
    exact loadUserKeysList_suffix parseOk files
  · intro s hs
    simp [normalizeKey, hs]
  · intro s hs
    simp [normalizeKey, hs]

/-- Claim C8: in the debounced-watcher model, a burst of events in which
each event arrives strictly before the pending timer would fire (gap
smaller than the interval) produces exactly one reload after the burst
settles, while events each spaced beyond the interval produce one reload
apiece. -/
theorem c8_debounce_counts (interval : Nat) (t : Nat) (ts : List Nat) :
    (List.Chain' (fun a b => b < a + interval) (t :: ts) →
      runDebouncer interval (t :: ts) = 1) ∧
    (List.Chain' (fun a b => a + interval < b) (t :: ts) →
      runDebouncer interval (t :: ts) = (t :: ts).length) := by
  constructor
  · intro h
    show debounceFires interval ts (some (t + interval)) = 1
    exact debounce_burst interval ts t h
  · intro h
    show debounceFires interval ts (some (t + interval)) = (t :: ts).length
    rw [debounce_spaced interval ts t h]
    simp

/-- Claim C10: a host configured with an omitted token (empty string) paired
with a request whose Authorization header is exactly `"Token "` passes the
header-format check and `validateToken`, so the request is never rejected
with 401 — authentication succeeds with no secret presented. -/
theorem c10_empty_token_authenticates (cfg : Config) (kr : Keyring)
    (H : String) (us gs : List String) (r : Request)
    (hH : lookupMap cfg.hosts H = some (hostConfigOmittedToken us gs))
    (hm : r.method = "GET") (hp : r.path = "/keys/" ++ H) (hne : H ≠ "")
    (ha : r.authHeader = "Token ") :
    hasPrefix r.authHeader "Token " = true ∧
    validateToken cfg H (trimPrefix r.authHeader "Token ") = true ∧
    (getKeysHandler cfg kr r).status ≠ 401 := by
  have hpre : hasPrefix "Token " "Token " = true := by decide
  have htrim : trimPrefix "Token " "Token " = "" := by decide
  have hval : validateToken cfg H "" = true := by
    rw [validateToken, hH]
    rfl
  refine ⟨by rw [ha]; exact hpre, by rw [ha, htrim]; exact hval, ?_⟩
  rw [getKeysHandler_get cfg kr r H hm hp hne, hH, ha, hpre, htrim, hval]
  by_cases hub : (getUsersForHost cfg kr H).isEmpty = true
  · simp [hub]
  · by_cases hnc :
        newlineCount (getKeysForUsers kr (getUsersForHost cfg kr H)) + 1 ≤ 1
    · simp [hub, hnc]
    · simp [hub, hnc]

/-- Claim C1: for a configured host and a request presenting its token, a
200 response's body is the concatenation, in the order `getUsersForHost`
enumerates them, of the full key sequences of the enumerated users; the
enumeration is duplicate-free; and it holds exactly the users that are a
direct user of the host or a member of a group of the host existing in the
config (unknown group names contributing nothing) and that have at least
one key in the keyring snapshot. -/
theorem c1_success_body (cfg : Config) (kr : Keyring) (H : String)
    (hc : HostConfig) (r : Request) (hH : lookupMap cfg.hosts H = some hc)
    (hm : r.method = "GET") (hp : r.path = "/keys/" ++ H)
    (ha : r.authHeader = "Token " ++ hc.token) :
    ((getKeysHandler cfg kr r).status = 200 →
      (getKeysHandler cfg kr r).body =
        String.join ((getUsersForHost cfg kr H).map
          (fun u => String.join (GetUserKeys kr u)))) ∧
    (getUsersForHost cfg kr H).Nodup ∧
    (∀ u, u ∈ getUsersForHost cfg kr H ↔
      ((u ∈ hc.users ∨ ∃ g ∈ hc.groups, ∃ gc,
          lookupMap cfg.groups g = some gc ∧ u ∈ gc.users) ∧
        GetUserKeys kr u ≠ [])) := by
  refine ⟨?_, ?_, ?_⟩
  · by_cases hne : H = ""
    · subst hne
      have h400 : getKeysHandler cfg kr r = ⟨400, "Missing hostname"⟩ := by
        simp only [getKeysHandler, hm, hp, trimPrefix_append]
        rw [if_neg (by simp)]
        simp
      rw [h400]
      intro h200
      exact absurd h200 (by decide)
    · rw [getKeysHandler_get cfg kr r H hm hp hne, hH, ha, trimPrefix_append,
        hasPrefix_append]
      have hval : validateToken cfg H hc.token = true := by
        rw [validateToken, hH]
        show (hc.token == hc.token) = true
        simp
      rw [hval]
      by_cases hub : (getUsersForHost cfg kr H).isEmpty = true
      · simp [hub]
      · by_cases hnc :
            newlineCount (getKeysForUsers kr (getUsersForHost cfg kr H))
              + 1 ≤ 1
        · simp [hub, hnc]
        · have hnc' : ¬newlineCount (String.join
              ((getUsersForHost cfg kr H).map
                (fun u => String.join (GetUserKeys kr u)))) = 0 := by
            rw [← getKeysForUsers_eq_join]
            omega
          simp [hub, getKeysForUsers_eq_join, hnc']
  · simp only [getUsersForHost, hH]
    exact (nodup_uniqueUsers cfg hc).filter _
  · intro u
    simp only [getUsersForHost, hH, List.mem_filter, mem_uniqueUsers,
      Bool.not_eq_true', List.isEmpty_eq_true]
    constructor
    · rintro ⟨hmem, hkeys⟩
      exact ⟨hmem, by simpa using hkeys⟩
    · rintro ⟨hmem, hkeys⟩
      exact ⟨hmem, by simpa using hkeys⟩

/-- Claim C9: against snapshots in which the keyring was built by a reload,
any non-empty user enumeration yields a payload containing at least one
newline, so the handler's final 404 branch "Host has no valid keys" is
unreachable for every request. -/
theorem c9_no_valid_keys_unreachable (parseOk : String → Bool)
    (entries : List UserDir) (cfg : Config) (kr : Keyring)
    (hkr : kr = buildKeyring parseOk entries) (r : Request) :
    (∀ H, getUsersForHost cfg kr H ≠ [] →
      1 ≤ newlineCount (getKeysForUsers kr (getUsersForHost cfg kr H))) ∧
    getKeysHandler cfg kr r ≠ ⟨404, "Host has no valid keys"⟩ := by
  have hwf : ∀ u ks, lookupMap kr u = some ks →
      ks ≠ [] ∧ ∀ k ∈ ks, hasSuffix k "\n" = true := by
    intro u ks h
    subst hkr
    exact buildKeyring_lookup parseOk entries u ks h
  have husers : ∀ H u, u ∈ getUsersForHost cfg kr H →
      GetUserKeys kr u ≠ [] := by
    intro H u hu
    rw [getUsersForHost] at hu
    cases hl : lookupMap cfg.hosts H with
    | none =>
        rw [hl] at hu
        simp at hu
    | some hc =>
        rw [hl] at hu
        have h2 := (List.mem_filter.mp hu).2
        intro h0
        rw [h0] at h2
        simp at h2
  have hmain : ∀ (users : List String),
      (∀ u ∈ users, GetUserKeys kr u ≠ []) → users ≠ [] →
      1 ≤ newlineCount (getKeysForUsers kr users) := by
    intro users hall hne
    cases users with
    | nil => cases hne rfl
    | cons u0 rest =>
        rw [getKeysForUsers_eq_join, List.map_cons, string_join_cons,
          newlineCount_append]
        have h0 : GetUserKeys kr u0 ≠ [] := hall u0 (by simp)
        obtain ⟨ks, hks⟩ : ∃ ks, lookupMap kr u0 = some ks := by
          cases hl : lookupMap kr u0 with
          | none =>
              exfalso
              apply h0
              simp [GetUserKeys, hl]
          | some ks => exact ⟨ks, rfl⟩
        have hks' : GetUserKeys kr u0 = ks := by simp [GetUserKeys, hks]
        obtain ⟨hne', hsuf⟩ := hwf u0 ks hks
        have hpos := newlineCount_join_pos hne' hsuf
        rw [hks']
        omega
  refine ⟨fun H hne => hmain _ (husers H) hne, ?_⟩
  simp only [getKeysHandler]
  split
  · decide
  · split
    · decide
    · split
      · decide
      · split
        · decide
        · split
          · decide
          · split
            · decide
            · rename_i hemp
              split
              · rename_i hcount
                exfalso
                have hneU :
                    getUsersForHost cfg kr (trimPrefix r.path "/keys/")
                      ≠ [] := by
                  intro h0
                  rw [h0] at hemp
                  simp at hemp
                have := hmain _ (husers _) hneU
                omega
              · intro h
                have h2 := congrArg Response.status h
                simp at h2

/-! ### Witnesses: the claim theorems applied at concrete inputs -/

/-- Witness for C1 at the spec §8 example, including a concrete 200. -/
theorem c1_success_body_witness :
    (getKeysHandler cfgW krW ⟨"GET", "/keys/web1", "Token tok-a"⟩).body =
      String.join ((getUsersForHost cfgW krW "web1").map
        (fun u => String.join (GetUserKeys krW u))) :=
  (c1_success_body cfgW krW "web1" hcW ⟨"GET", "/keys/web1", "Token tok-a"⟩
    (by decide) (by decide) (by decide) (by decide)).1 (by decide)

/-- Witness for C2 with a missing Authorization header. -/
theorem c2_wrong_token_401_witness :
    (getKeysHandler cfgW krW ⟨"GET", "/keys/web1", ""⟩).status = 401 :=
  (c2_wrong_token_401 cfgW krW "web1" hcW ⟨"GET", "/keys/web1", ""⟩
    (by decide) (by decide) (by decide) (by decide) (by decide)).1

/-- Witness for C3 at an unknown hostname with an arbitrary credential. -/
theorem c3_unknown_host_404_witness :
    getKeysHandler cfgW krW ⟨"GET", "/keys/nohost", "Token anything"⟩ =
      ⟨404, "Host not found"⟩ :=
  (c3_unknown_host_404 cfgW krW "nohost"
    ⟨"GET", "/keys/nohost", "Token anything"⟩
    (by decide) (by decide) (by decide) (by decide)).1

/-- Witness for C4: concrete failing and succeeding reloads of both
stores. -/
theorem c4_failed_reload_keeps_snapshot_witness :
    reloadConfig none (fun _ => none) cfgW = cfgW ∧
    reloadConfig (some "bad yaml") (fun _ => none) cfgW = cfgW ∧
    reloadKeyring parseOkW none krW = krW ∧
    reloadConfig (some "ok") (fun _ => some cfgW) cfgW2 = cfgW ∧
    reloadKeyring parseOkW (some entriesW) [] =
      buildKeyring parseOkW entriesW :=
  ⟨c4_failed_reload_keeps_snapshot.1 (fun _ => none) cfgW,
   c4_failed_reload_keeps_snapshot.2.1 "bad yaml" (fun _ => none) cfgW rfl,
   c4_failed_reload_keeps_snapshot.2.2.1 parseOkW krW,
   c4_failed_reload_keeps_snapshot.2.2.2.1 "ok" (fun _ => some cfgW) cfgW2
     cfgW rfl,
   c4_failed_reload_keeps_snapshot.2.2.2.2 parseOkW entriesW []⟩

/-- Witness for C5 at a concrete directory listing. -/
theorem c5_invalid_key_skipped_witness :
    loadUserKeys parseOkW (some [⟨"bad.pub", some "nope"⟩,
      ⟨"good.pub", some "kb"⟩, ⟨"readme.txt", some "kb"⟩]) =
      .ok [normalizeKey "kb"] :=
  (c5_invalid_key_skipped parseOkW ⟨"bad.pub", some "nope"⟩
    ⟨"good.pub", some "kb"⟩ ⟨"readme.txt", some "kb"⟩ "nope" "kb"
    (by decide) rfl (by decide) (by decide) rfl (by decide) (by decide)).1

/-- Witness for C6: `carol` (only an invalid key) is absent from the built
snapshot, and `alice`'s looked-up sequence is non-empty. -/
theorem c6_no_empty_user_entries_witness :
    lookupMap (buildKeyring parseOkW entriesW) "carol" = none ∧
    (["ka1\n", "ka2\n"] : List String) ≠ [] :=
  ⟨(c6_no_empty_user_entries parseOkW entriesW "carol").2 (by
      intro e he hname hd keys hkeys
      simp only [entriesW, List.mem_cons, List.not_mem_nil, or_false] at he
      rcases he with rfl | rfl | rfl | rfl
      · exact absurd hname (by decide)
      · exact absurd hname (by decide)
      · have h' : Except.ok ([] : List String) = Except.ok keys := hkeys
        exact (Except.ok.inj h').symm
      · exact absurd hd (by decide)),
   (c6_no_empty_user_entries parseOkW entriesW "alice").1
     ["ka1\n", "ka2\n"] (by decide)⟩

/-- Witness for C7 (amended) on a concrete accepted key and the two
normalization cases. -/
theorem c7_trailing_newline_witness :
    hasSuffix "ka1\n" "\n" = true ∧
    normalizeKey "ka1" = "ka1" ++ "\n" ∧
    normalizeKey "kb\n" = "kb\n" :=
  have h := c7_trailing_newline parseOkW [⟨"a1.pub", some "ka1"⟩]
    ["ka1\n"] rfl
  ⟨h.1 "ka1\n" (by decide), h.2.1 "ka1" (by decide), h.2.2 "kb\n" (by decide)⟩

/-- Witness for C8: three events 3 time units apart debounce to one reload
with interval 10, and three events 20 apart yield three. -/
theorem c8_debounce_counts_witness :
    runDebouncer 10 [0, 3, 6] = 1 ∧ runDebouncer 10 [0, 20, 40] = 3 :=
  ⟨(c8_debounce_counts 10 0 [3, 6]).1 (by norm_num [List.chain'_cons]),
   (c8_debounce_counts 10 0 [20, 40]).2 (by norm_num [List.chain'_cons])⟩

/-- Witness for C9 with the keyring snapshot built from the example
directory tree. -/
theorem c9_no_valid_keys_unreachable_witness :
    getKeysHandler cfgW (buildKeyring parseOkW entriesW)
      ⟨"GET", "/keys/web1", "Token tok-a"⟩ ≠
        ⟨404, "Host has no valid keys"⟩ :=
  (c9_no_valid_keys_unreachable parseOkW entriesW cfgW
    (buildKeyring parseOkW entriesW) rfl
    ⟨"GET", "/keys/web1", "Token tok-a"⟩).2

/-- Witness for C10: the empty-token host accepts `"Token "`. -/
theorem c10_empty_token_authenticates_witness :
    (getKeysHandler cfgW2 krW ⟨"GET", "/keys/web2", "Token "⟩).status
      ≠ 401 :=
  (c10_empty_token_authenticates cfgW2 krW "web2" ["alice"] []
    ⟨"GET", "/keys/web2", "Token "⟩
    (by decide) (by decide) (by decide) (by decide) (by decide)).2.2

end SSHKeyserver
